import Mathlib

/-!
Verification of the process-tracing engine in `src/proj-1/deet/src/inferior.rs`.

The traced child process is modelled as an explicit `Target` state: a byte-addressed
memory (`mem`), a register snapshot (`rip`, `rbp`), per-address success flags for the
ptrace read/write calls, success flags for `getregs`/`setregs`, and a liveness bit for
the non-blocking `try_wait` probe.  The debugger's own state is `Inferior` (the `Target`
it controls plus the `breakpoints_original_instr` table, modelled as an association list
mirroring `HashMap` semantics).  Effectful operations are translated into pure functions
that also emit a log of the ptrace actions they perform; the outcomes of blocking waits
and the effect of letting the child run (one step, or a full continue) are inputs
supplied by an environment record, since they are decided by the OS and the child.
-/

namespace Deet

/-- `size_of::<usize>()` on the 64-bit target. -/
def wordSize : Nat := 8

/-- Numeric value of `signal::SIGTRAP`. -/
def SIGTRAP : Nat := 5

/-- The registers the code reads or writes: `rip` and `rbp` from the
`ptrace::getregs` snapshot. -/
structure Regs where
  rip : Nat
  rbp : Nat
deriving DecidableEq

/-- State of the traced child as seen through ptrace: byte memory, registers,
and success/liveness flags for the individual ptrace calls. -/
structure Target where
  mem : Nat → Fin 256
  readOk : Nat → Bool
  writeOk : Nat → Bool
  regs : Regs
  regsOk : Bool
  setregsOk : Bool
  alive : Bool

/-- The 64-bit word a successful `ptrace::read` at address `a` returns: the eight bytes
`a, …, a+7` assembled little-endian. -/
def readWord (mem : Nat → Fin 256) (a : Nat) : Nat :=
  (mem a).val + 256 * ((mem (a + 1)).val + 256 * ((mem (a + 2)).val + 256 * ((mem (a + 3)).val +
    256 * ((mem (a + 4)).val + 256 * ((mem (a + 5)).val + 256 * ((mem (a + 6)).val +
    256 * (mem (a + 7)).val))))))

/-- Effect of `ptrace::write` of word `w` at address `a`: the eight bytes
`a, a+1, …, a+7` become the little-endian bytes of `w`; all others are untouched. -/
def writeWordMem (mem : Nat → Fin 256) (a w : Nat) : Nat → Fin 256 :=
  fun x =>
    if a ≤ x ∧ x < a + wordSize then ⟨w / 2 ^ (8 * (x - a)) % 256, Nat.mod_lt _ (by norm_num)⟩
    else mem x

/-- `fn align_addr_to_word(addr: usize) -> usize { addr & (-(size_of::<usize>() as isize) as usize) }`.
The mask `-(8 as isize) as usize` is `2^64 - 8`. -/
def align_addr_to_word (addr : Nat) : Nat :=
  Nat.land addr (2 ^ 64 - wordSize)

/-- Observable ptrace actions issued by the debugger on the child, in order:
word writes to memory, register writes, single-step requests, continue requests. -/
inductive Action where
  | memWrite (addr : Nat) (word : Nat)
  | setRegs (rip : Nat)
  | singleStep
  | contReq
deriving DecidableEq

/-- `Inferior::write_byte(addr, val)`: read the word at the aligned address, extract the
original byte at the offset, replace that byte by `val` with the source's mask arithmetic
(on `u64`, where `!x = 2^64 - 1 - x`), write the word back.  Returns the updated target
and the original byte, or an error if the read or the write fails, together with the log
of the memory writes performed. -/
def write_byte (t : Target) (addr val : Nat) : Except Unit (Target × Nat) × List Action :=
  let aligned_addr := align_addr_to_word addr
  let byte_offset := addr - aligned_addr
  if t.readOk aligned_addr then
    let word := readWord t.mem aligned_addr
    let orig_byte := Nat.land (Nat.shiftRight word (8 * byte_offset)) 0xff
    let masked_word := Nat.land word (2 ^ 64 - 1 - Nat.shiftLeft 0xff (8 * byte_offset))
    let updated_word := Nat.lor masked_word (Nat.shiftLeft val (8 * byte_offset))
    if t.writeOk aligned_addr then
      (Except.ok ({ t with mem := writeWordMem t.mem aligned_addr updated_word }, orig_byte),
        [Action.memWrite aligned_addr updated_word])
    else (Except.error (), [])
  else (Except.error (), [])

/-- `HashMap::contains_key`. -/
def hmContains (m : List (Nat × Nat)) (k : Nat) : Bool :=
  m.any (fun p => p.1 == k)

/-- `HashMap::get` (by value). -/
def hmLookup (m : List (Nat × Nat)) (k : Nat) : Option Nat :=
  (m.find? (fun p => p.1 == k)).map Prod.snd

/-- `HashMap::insert`: replace the value if the key is present, else add the binding. -/
def hmInsert (m : List (Nat × Nat)) (k v : Nat) : List (Nat × Nat) :=
  if hmContains m k then m.map (fun p => if p.1 == k then (k, v) else p) else m ++ [(k, v)]

/-- Each address occurs at most once among the table's keys. -/
def keysNodup (m : List (Nat × Nat)) : Prop :=
  (m.map Prod.fst).Nodup

/-- The debugger-side state: the traced child and the breakpoint table
`breakpoints_original_instr : HashMap<usize, u8>`. -/
structure Inferior where
  target : Target
  breakpoints_original_instr : List (Nat × Nat)

/-- `Inferior::set_breakpoint(addr)`: if the non-blocking `try_wait` probe says the child
is still running, patch `0xcc` at `addr` via `write_byte`; on success record the original
byte in the table only if `addr` is not already a key.  A dead child or a failed
read/write leaves the whole state unchanged (the failure is only printed). -/
def set_breakpoint (inf : Inferior) (addr : Nat) : Inferior × List Action :=
  if inf.target.alive then
    match write_byte inf.target addr 0xcc with
    | (Except.ok (t', orig_instr), log) =>
      if hmContains inf.breakpoints_original_instr addr then
        ({ target := t', breakpoints_original_instr := inf.breakpoints_original_instr }, log)
      else
        ({ target := t',
           breakpoints_original_instr := hmInsert inf.breakpoints_original_instr addr orig_instr },
         log)
    | (Except.error _, log) => (inf, log)
  else (inf, [])

/-- `Status`: decoded outcome of a wait, as in the source. -/
inductive Status where
  | stopped (sig : Nat) (rip : Nat)
  | exited (code : Int)
  | signaled (sig : Nat)
deriving DecidableEq

/-- The `nix` `WaitStatus` variants `waitpid` can report (signals as numbers). -/
inductive WaitStatus where
  | exited (pid : Nat) (code : Int)
  | signaled (pid : Nat) (sig : Nat) (coreDumped : Bool)
  | stopped (pid : Nat) (sig : Nat)
  | ptraceEvent (pid : Nat) (sig : Nat) (event : Int)
  | ptraceSyscall (pid : Nat)
  | continued (pid : Nat)
  | stillAlive
deriving DecidableEq

/-- Result of `Inferior::wait`: a decoded `Status`, a propagated `nix::Error`, or the
`panic!` hit on an unrecognized `WaitStatus`. -/
inductive WaitOutcome where
  | ok (s : Status)
  | err
  | panicked
deriving DecidableEq

/-- `Inferior::wait(None)`: decode the `waitpid` answer `wr` (an `Err` propagates).
Exited and Signaled map to their `Status` variants; Stopped additionally reads `rip`
from `ptrace::getregs` (whose failure propagates as an error); anything else hits
the `panic!` catch-all. -/
def inferiorWait (t : Target) (wr : Except Unit WaitStatus) : WaitOutcome :=
  match wr with
  | Except.error _ => WaitOutcome.err
  | Except.ok ws =>
    match ws with
    | WaitStatus.exited _ code => WaitOutcome.ok (Status.exited code)
    | WaitStatus.signaled _ sg _ => WaitOutcome.ok (Status.signaled sg)
    | WaitStatus.stopped _ sg =>
        if t.regsOk then WaitOutcome.ok (Status.stopped sg t.regs.rip) else WaitOutcome.err
    | WaitStatus.ptraceEvent _ _ _ => WaitOutcome.panicked
    | WaitStatus.ptraceSyscall _ => WaitOutcome.panicked
    | WaitStatus.continued _ => WaitOutcome.panicked
    | WaitStatus.stillAlive => WaitOutcome.panicked

/-- Environment for one `cont()` call: whether the step / continue requests themselves
succeed, what running the child does to it (`stepEffect`, `contEffect`), and what
`waitpid` reports after each. -/
structure ContEnv where
  stepOk : Bool
  stepEffect : Target → Target
  stepWaitStatus : Except Unit WaitStatus
  contOk : Bool
  contEffect : Target → Target
  contWaitStatus : Except Unit WaitStatus

/-- Result of `Inferior::cont`: `Ok(status)`, a propagated `nix::Error`, or a panic. -/
inductive ContOutcome where
  | ok (s : Status)
  | err
  | panicked
deriving DecidableEq

/-- Lift a wait outcome to a `cont` outcome (the final `self.wait(None)` is returned
directly, so its error propagates and its internal panic aborts). -/
def waitToCont : WaitOutcome → ContOutcome
  | WaitOutcome.ok s => ContOutcome.ok s
  | WaitOutcome.err => ContOutcome.err
  | WaitOutcome.panicked => ContOutcome.panicked

/-- Tail of `Inferior::cont`: `ptrace::cont(..)?` followed by `self.wait(None)`. -/
def contTail (inf : Inferior) (env : ContEnv) (log : List Action) :
    ContOutcome × Inferior × List Action :=
  if env.contOk then
    let t' := env.contEffect inf.target
    (waitToCont (inferiorWait t' env.contWaitStatus),
     ⟨t', inf.breakpoints_original_instr⟩, log ++ [Action.contReq])
  else (ContOutcome.err, inf, log ++ [Action.contReq])

/-- `Inferior::cont()`: read the registers; if `(rip - 1)` is in the breakpoint table,
run the step-over sub-protocol (restore the original byte — failure only printed —
rewind `rip` via `setregs` whose failure panics, single-step, wait: Exited returns
immediately, Signaled is printed and execution falls through, a SIGTRAP stop re-arms
the breakpoint, any other stop panics, a wait error panics); then issue the full
continue and wait. -/
def contResult (inf : Inferior) (env : ContEnv) : ContOutcome × Inferior × List Action :=
  if inf.target.regsOk then
    let registers := inf.target.regs
    let rip_addr := registers.rip
    match hmLookup inf.breakpoints_original_instr (rip_addr - 1) with
    | some instr =>
      let restored :=
        match write_byte inf.target (rip_addr - 1) instr with
        | (Except.ok (t', _), log) => (t', log)
        | (Except.error _, log) => (inf.target, log)
      let t1 := restored.1
      if t1.setregsOk then
        let t2 : Target := { t1 with regs := { registers with rip := rip_addr - 1 } }
        let log2 := restored.2 ++ [Action.setRegs (rip_addr - 1)]
        if env.stepOk then
          let t3 := env.stepEffect t2
          let log3 := log2 ++ [Action.singleStep]
          match inferiorWait t3 env.stepWaitStatus with
          | WaitOutcome.err =>
              (ContOutcome.panicked, ⟨t3, inf.breakpoints_original_instr⟩, log3)
          | WaitOutcome.panicked =>
              (ContOutcome.panicked, ⟨t3, inf.breakpoints_original_instr⟩, log3)
          | WaitOutcome.ok status =>
            match status with
            | Status.exited code =>
                (ContOutcome.ok (Status.exited code), ⟨t3, inf.breakpoints_original_instr⟩, log3)
            | Status.signaled _sg =>
                contTail ⟨t3, inf.breakpoints_original_instr⟩ env log3
            | Status.stopped sg _rip =>
                if sg = SIGTRAP then
                  let rearmed := set_breakpoint ⟨t3, inf.breakpoints_original_instr⟩ (rip_addr - 1)
                  contTail rearmed.1 env (log3 ++ rearmed.2)
                else (ContOutcome.panicked, ⟨t3, inf.breakpoints_original_instr⟩, log3)
        else (ContOutcome.err, ⟨t2, inf.breakpoints_original_instr⟩, log2)
      else (ContOutcome.panicked, ⟨t1, inf.breakpoints_original_instr⟩, restored.2)
    | none => contTail inf env []
  else (ContOutcome.err, inf, [])

/-- Result of `Inferior::new`: `Some(inferior)`, `None`, or the panic inside `wait`. -/
inductive NewResult where
  | controller (inf : Inferior)
  | noController
  | panicked

/-- The breakpoint-installation loop `for addr in breakpoints { inf.set_breakpoint(*addr) }`. -/
def installAll (inf : Inferior) (breakpoints : List Nat) : Inferior :=
  breakpoints.foldl (fun i a => (set_breakpoint i a).1) inf

/-- `Inferior::new(target, args, breakpoints)`: `spawn` is `none` when `cmd.spawn()` fails,
otherwise the initial state of the traced child; `firstWait` is what `waitpid` first
reports.  A controller is produced only on a SIGTRAP stop, after installing every
requested breakpoint. -/
def Inferior.new (spawn : Option Target) (firstWait : Except Unit WaitStatus)
    (breakpoints : List Nat) : NewResult :=
  match spawn with
  | none => NewResult.noController
  | some t0 =>
    match inferiorWait t0 firstWait with
    | WaitOutcome.err => NewResult.noController
    | WaitOutcome.panicked => NewResult.panicked
    | WaitOutcome.ok st =>
      match st with
      | Status.stopped sg _ =>
          if sg = SIGTRAP then NewResult.controller (installAll ⟨t0, []⟩ breakpoints)
          else NewResult.noController
      | Status.exited _ => NewResult.noController
      | Status.signaled _ => NewResult.noController

/-- A `dwarf_data::Line` as used by `print_backtrace`. -/
structure Line where
  file : String
  number : Nat
  address : Nat
deriving DecidableEq

/-- One emitted backtrace frame: `{function} ({file}:{number})`. -/
structure Frame where
  function : String
  file : String
  line : Nat
deriving DecidableEq

/-- The symbol-resolver collaborator (`DwarfData`), specified only at its interface. -/
structure DwarfData where
  getLineFromAddr : Nat → Option Line
  getFunctionFromAddr : Nat → Option String

/-- Result of the backtrace walk: the frames printed, ending normally, with a
propagated read error, or with exhausted fuel (the source's loop still running). -/
inductive BtResult where
  | ok (frames : List Frame)
  | err (frames : List Frame)
  | fuelOut (frames : List Frame)
deriving DecidableEq

/-- `debug_data.get_function_from_addr(ip).unwrap_or("undefined")`. -/
def resolvedFunction (dd : DwarfData) (ip : Nat) : String :=
  (dd.getFunctionFromAddr ip).getD "undefined"

/-- `debug_data.get_line_from_addr(ip).unwrap_or(Line ... "undefined" ... 0 ... ip)`. -/
def resolvedLine (dd : DwarfData) (ip : Nat) : Line :=
  (dd.getLineFromAddr ip).getD ⟨"undefined", 0, ip⟩

/-- The frame printed for instruction pointer `ip`. -/
def resolvedFrame (dd : DwarfData) (ip : Nat) : Frame :=
  ⟨resolvedFunction dd ip, (resolvedLine dd ip).file, (resolvedLine dd ip).number⟩

/-- The `loop` body of `Inferior::print_backtrace`, with explicit fuel: resolve and emit
the frame for `ip`; stop once the resolved function is `"main"`; otherwise read the next
`(ip, bp)` pair from the words at `bp + 8` and `bp` (a failed read aborts with the frames
emitted so far) and iterate. -/
def print_backtrace_aux (dd : DwarfData) (t : Target) : Nat → Nat → Nat → BtResult
  | 0, _, _ => BtResult.fuelOut []
  | fuel + 1, ip, bp =>
    let fr := resolvedFrame dd ip
    if resolvedFunction dd ip = "main" then BtResult.ok [fr]
    else if t.readOk (bp + 8) && t.readOk bp then
      match print_backtrace_aux dd t fuel (readWord t.mem (bp + 8)) (readWord t.mem bp) with
      | BtResult.ok fs => BtResult.ok (fr :: fs)
      | BtResult.err fs => BtResult.err (fr :: fs)
      | BtResult.fuelOut fs => BtResult.fuelOut (fr :: fs)
    else BtResult.err [fr]

/-- `Inferior::print_backtrace`: read `rip` and `rbp` from `ptrace::getregs` (a failure
propagates before any frame is printed), then walk the frames. -/
def print_backtrace (dd : DwarfData) (t : Target) (fuel : Nat) : BtResult :=
  if t.regsOk then print_backtrace_aux dd t fuel t.regs.rip t.regs.rbp
  else BtResult.err []

/-- One frame-pointer step of the walk: from `(ip, bp)` to the pair read from
`bp + 8` and `bp`, or `none` if a read fails. -/
def btStep (t : Target) (p : Nat × Nat) : Option (Nat × Nat) :=
  if t.readOk (p.2 + 8) && t.readOk p.2 then
    some (readWord t.mem (p.2 + 8), readWord t.mem p.2)
  else none

/-- `n` frame-pointer steps of the walk. -/
def btIter (t : Target) : Nat → (Nat × Nat) → Option (Nat × Nat)
  | 0, p => some p
  | n + 1, p =>
    match btStep t p with
    | some q => btIter t n q
    | none => none

/-- The target state after the restore-and-rewind prefix of the step-over sub-protocol:
the original byte `instr` written back at `rip - 1` (a failed write leaves memory as it
was) and `rip` rewound to `rip - 1`. -/
def stepOverRestored (inf : Inferior) (instr : Nat) : Target :=
  let A := inf.target.regs.rip - 1
  let t1 :=
    match (write_byte inf.target A instr).1 with
    | Except.ok p => p.1
    | Except.error _ => inf.target
  { t1 with regs := { inf.target.regs with rip := A } }

/-- The target state after additionally executing the single instruction step. -/
def stepOverStepped (inf : Inferior) (env : ContEnv) (instr : Nat) : Target :=
  env.stepEffect (stepOverRestored inf instr)

/-- The tail of `cont()` from the wait after the single step on: dispatch on the decoded
status (return on exit, print and fall through on a signal kill, re-arm on a trap stop,
panic otherwise), then the full continue.  `contResult` reduces to this once the
restore / rewind / step prefix has been carried out. -/
def stepOverTail (inf3 : Inferior) (env : ContEnv) (A : Nat) (log3 : List Action) :
    ContOutcome × Inferior × List Action :=
  match inferiorWait inf3.target env.stepWaitStatus with
  | WaitOutcome.err => (ContOutcome.panicked, inf3, log3)
  | WaitOutcome.panicked => (ContOutcome.panicked, inf3, log3)
  | WaitOutcome.ok status =>
    match status with
    | Status.exited code => (ContOutcome.ok (Status.exited code), inf3, log3)
    | Status.signaled _sg => contTail inf3 env log3
    | Status.stopped sg _rip =>
        if sg = SIGTRAP then
          contTail (set_breakpoint inf3 A).1 env (log3 ++ (set_breakpoint inf3 A).2)
        else (ContOutcome.panicked, inf3, log3)

/-- A concrete memory image: `0x90` everywhere. -/
def demoMem : Nat → Fin 256 := fun _ => (0x90 : Fin 256)

/-- All ptrace reads/writes succeed. -/
def allTrue : Nat → Bool := fun _ => true

/-- A concrete healthy target stopped at `rip = 2`. -/
def demoTarget : Target :=
  { mem := demoMem, readOk := allTrue, writeOk := allTrue,
    regs := ⟨2, 0⟩, regsOk := true, setregsOk := true, alive := true }

/-- A concrete inferior with a breakpoint recorded at address `1`. -/
def demoInf : Inferior := ⟨demoTarget, [(1, 0x90)]⟩

/-- A concrete environment in which the wait after the single step reports that the
child was terminated by signal `9`. -/
def demoSigEnv : ContEnv :=
  { stepOk := true, stepEffect := id,
    stepWaitStatus := Except.ok (WaitStatus.signaled 0 9 false),
    contOk := true, contEffect := id,
    contWaitStatus := Except.ok (WaitStatus.exited 0 0) }

/-- A concrete environment in which the wait after the single step reports a SIGTRAP
stop, and the final wait reports a normal exit. -/
def demoTrapEnv : ContEnv :=
  { stepOk := true, stepEffect := id,
    stepWaitStatus := Except.ok (WaitStatus.stopped 0 SIGTRAP),
    contOk := true, contEffect := id,
    contWaitStatus := Except.ok (WaitStatus.exited 0 0) }

/-- A concrete inferior whose child has already exited. -/
def demoDeadInf : Inferior :=
  ⟨{ demoTarget with alive := false }, []⟩

/-- A concrete inferior with an empty breakpoint table. -/
def demoEmptyInf : Inferior := ⟨demoTarget, []⟩

/-- A concrete symbol resolver: address `7` is in `"main"`, nothing else resolves. -/
def demoDwarf : DwarfData :=
  { getLineFromAddr := fun _ => none,
    getFunctionFromAddr := fun a => if a = 7 then some "main" else none }

/-! ### Arithmetic helper lemmas -/

theorem natShiftLeft_eq (a b : Nat) : Nat.shiftLeft a b = a * 2 ^ b :=
  Nat.shiftLeft_eq a b

theorem natShiftRight_eq (a b : Nat) : Nat.shiftRight a b = a / 2 ^ b :=
  Nat.shiftRight_eq_div_pow a b

theorem land_255 (x : Nat) : Nat.land x 255 = x % 256 := by
  apply Nat.eq_of_testBit_eq
  intro i
  rw [show Nat.land x 255 = x &&& 255 from rfl, Nat.testBit_land,
    show (255 : Nat) = 2 ^ 8 - 1 from by norm_num, Nat.testBit_two_pow_sub_one,
    show (256 : Nat) = 2 ^ 8 from by norm_num, Nat.testBit_mod_two_pow]
  exact Bool.and_comm _ _

theorem testBit_div_pow (x m i : Nat) : (x / 2 ^ m).testBit i = x.testBit (m + i) := by
  rw [← Nat.shiftRight_eq_div_pow]
  exact Nat.testBit_shiftRight x

/-- Bit `i` of `a + 2 ^ m * b` when `a < 2 ^ m`: low bits come from `a`, high from `b`. -/
theorem testBit_add_mul_pow (a b m i : Nat) (ha : a < 2 ^ m) :
    (a + 2 ^ m * b).testBit i = if i < m then a.testBit i else b.testBit (i - m) := by
  by_cases h : i < m
  · rw [if_pos h, Nat.testBit_to_div_mod, Nat.testBit_to_div_mod]
    have hpow : (2 : Nat) ^ m = 2 ^ i * 2 ^ (m - i) := by
      rw [← pow_add]
      congr 1
      omega
    have hdiv : (a + 2 ^ m * b) / 2 ^ i = a / 2 ^ i + 2 ^ (m - i) * b := by
      rw [hpow, mul_assoc, Nat.add_mul_div_left _ _ (Nat.two_pow_pos i)]
    have h2 : (2 : Nat) ^ (m - i) = 2 * 2 ^ (m - i - 1) := by
      rw [← pow_succ']
      congr 1
      omega
    rw [hdiv, h2, mul_assoc, Nat.add_mul_mod_self_left]
  · rw [if_neg h, Nat.testBit_to_div_mod, Nat.testBit_to_div_mod]
    have hpow : (2 : Nat) ^ i = 2 ^ m * 2 ^ (i - m) := by
      rw [← pow_add]
      congr 1
      omega
    have hdiv : (a + 2 ^ m * b) / 2 ^ i = b / 2 ^ (i - m) := by
      rw [hpow, ← Nat.div_div_eq_div_mul, Nat.add_mul_div_left _ _ (Nat.two_pow_pos m),
        Nat.div_eq_of_lt ha, Nat.zero_add]
    rw [hdiv]

/-- Bits of the source's trap mask `!(0xff << 8 * k)` (on `u64`, equal to
`2 ^ 64 - 1 - (255 <<< 8 * k)`): all bits except byte `k`, up to bit 63. -/
theorem testBit_trap_mask (k i : Nat) (hk : k < 8) :
    (2 ^ 64 - 1 - Nat.shiftLeft 255 (8 * k)).testBit i =
      (decide (i < 8 * k) || (decide (8 * k + 8 ≤ i) && decide (i < 64))) := by
  have hdec : 2 ^ 64 - 1 - Nat.shiftLeft 255 (8 * k) =
      (2 ^ (8 * k) - 1) + 2 ^ (8 * k + 8) * (2 ^ (56 - 8 * k) - 1) := by
    interval_cases k <;> decide
  have hlt : (2 : Nat) ^ (8 * k) - 1 < 2 ^ (8 * k + 8) := by
    have := Nat.pow_le_pow_right (show 0 < 2 by norm_num) (show 8 * k ≤ 8 * k + 8 by omega)
    have := Nat.two_pow_pos (8 * k)
    omega
  rw [hdec, testBit_add_mul_pow _ _ _ _ hlt]
  by_cases h1 : i < 8 * k + 8
  · rw [if_pos h1, Nat.testBit_two_pow_sub_one]
    have : ¬ (8 * k + 8 ≤ i) := by omega
    simp [this]
  · rw [if_neg h1, Nat.testBit_two_pow_sub_one]
    have h4 : (i - (8 * k + 8) < 56 - 8 * k) ↔ i < 64 := by omega
    simp [show ¬ i < 8 * k from by omega, show 8 * k + 8 ≤ i from by omega, h4]

/-- The masked-or arithmetic of `write_byte` in closed form: replacing byte `k` of the
64-bit word `w` by `v` yields `low bytes + v·2^(8k) + high bytes`. -/
theorem masked_lor_eq (w v k : Nat) (hw : w < 2 ^ 64) (hv : v < 256) (hk : k < 8) :
    Nat.lor (Nat.land w (2 ^ 64 - 1 - Nat.shiftLeft 255 (8 * k))) (Nat.shiftLeft v (8 * k)) =
      w % 2 ^ (8 * k) + 2 ^ (8 * k) * (v + 2 ^ 8 * (w / 2 ^ (8 * k + 8))) := by
  apply Nat.eq_of_testBit_eq
  intro i
  rw [show Nat.lor (Nat.land w (2 ^ 64 - 1 - Nat.shiftLeft 255 (8 * k)))
        (Nat.shiftLeft v (8 * k)) =
      (w &&& (2 ^ 64 - 1 - Nat.shiftLeft 255 (8 * k))) ||| (Nat.shiftLeft v (8 * k)) from rfl,
    Nat.testBit_lor, Nat.testBit_land, testBit_trap_mask k i hk,
    natShiftLeft_eq, show v * 2 ^ (8 * k) = 0 + 2 ^ (8 * k) * v by ring,
    testBit_add_mul_pow 0 v (8 * k) i (Nat.two_pow_pos _),
    testBit_add_mul_pow (w % 2 ^ (8 * k)) _ (8 * k) i (Nat.mod_lt w (Nat.two_pow_pos _)),
    Nat.testBit_mod_two_pow]
  by_cases h1 : i < 8 * k
  · simp [h1, Nat.zero_testBit, show ¬ (8 * k + 8 ≤ i) from by omega]
  · by_cases h2 : i < 8 * k + 8
    · rw [if_neg h1, if_neg h1,
        testBit_add_mul_pow v _ 8 (i - 8 * k) hv, if_pos (show i - 8 * k < 8 by omega)]
      simp [show ¬ i < 8 * k from h1, show ¬ (8 * k + 8 ≤ i) from by omega]
    · rw [if_neg h1, if_neg h1,
        testBit_add_mul_pow v _ 8 (i - 8 * k) hv, if_neg (show ¬ i - 8 * k < 8 by omega),
        testBit_div_pow, show 8 * k + 8 + (i - 8 * k - 8) = i by omega]
      have hvi : v.testBit (i - 8 * k) = false := by
        apply Nat.testBit_eq_false_of_lt
        calc v < 256 := hv
          _ = 2 ^ 8 := by norm_num
          _ ≤ 2 ^ (i - 8 * k) := Nat.pow_le_pow_right (by norm_num) (by omega)
      by_cases h3 : i < 64
      · simp [hvi, show ¬ i < 8 * k from h1, show 8 * k + 8 ≤ i from by omega, h3]
      · have hwi : w.testBit i = false := by
          apply Nat.testBit_eq_false_of_lt
          calc w < 2 ^ 64 := hw
            _ ≤ 2 ^ i := Nat.pow_le_pow_right (by norm_num) (by omega)
        simp [hvi, hwi, h3]

/-- Byte `j` of the rewritten word: `v` at the patched offset `k`, the original byte of
`w` everywhere else. -/
theorem write_word_bytes (w v k j : Nat) (hv : v < 256) (hk : k < 8) :
    (w % 2 ^ (8 * k) + 2 ^ (8 * k) * (v + 2 ^ 8 * (w / 2 ^ (8 * k + 8)))) / 2 ^ (8 * j) % 256 =
      if j = k then v else w / 2 ^ (8 * j) % 256 := by
  rcases lt_trichotomy j k with h | h | h
  · rw [if_neg (by omega)]
    have hsplit : (2 : Nat) ^ (8 * k) = 2 ^ (8 * j) * 2 ^ (8 * k - 8 * j) := by
      rw [← pow_add]
      congr 1
      omega
    have hdiv : (w % 2 ^ (8 * k) + 2 ^ (8 * k) * (v + 2 ^ 8 * (w / 2 ^ (8 * k + 8)))) /
        2 ^ (8 * j) =
        w % 2 ^ (8 * k) / 2 ^ (8 * j) + 2 ^ (8 * k - 8 * j) *
          (v + 2 ^ 8 * (w / 2 ^ (8 * k + 8))) := by
      rw [hsplit, mul_assoc, Nat.add_mul_div_left _ _ (Nat.two_pow_pos _)]
    have h256 : (2 : Nat) ^ (8 * k - 8 * j) = 256 * 2 ^ (8 * k - 8 * j - 8) := by
      rw [show (256 : Nat) = 2 ^ 8 from by norm_num, ← pow_add]
      congr 1
      omega
    have hlow : w % 2 ^ (8 * k) / 2 ^ (8 * j) = w / 2 ^ (8 * j) % 2 ^ (8 * k - 8 * j) := by
      rw [hsplit]
      exact Nat.mod_mul_right_div_self w _ _
    rw [hdiv, h256, mul_assoc, Nat.add_mul_mod_self_left, hlow,
      Nat.mod_mod_of_dvd _ ⟨2 ^ (8 * k - 8 * j - 8), h256⟩]
  · subst h
    have hdiv : (w % 2 ^ (8 * j) + 2 ^ (8 * j) * (v + 2 ^ 8 * (w / 2 ^ (8 * j + 8)))) /
        2 ^ (8 * j) = v + 2 ^ 8 * (w / 2 ^ (8 * j + 8)) := by
      rw [Nat.add_mul_div_left _ _ (Nat.two_pow_pos _),
        Nat.div_eq_of_lt (Nat.mod_lt w (Nat.two_pow_pos _)), Nat.zero_add]
    rw [if_pos rfl, hdiv, show (2 : Nat) ^ 8 = 256 from by norm_num,
      Nat.add_mul_mod_self_left, Nat.mod_eq_of_lt hv]
  · rw [if_neg (by omega)]
    have hform : w % 2 ^ (8 * k) + 2 ^ (8 * k) * (v + 2 ^ 8 * (w / 2 ^ (8 * k + 8))) =
        (w % 2 ^ (8 * k) + 2 ^ (8 * k) * v) + 2 ^ (8 * k + 8) * (w / 2 ^ (8 * k + 8)) := by
      rw [pow_add]
      ring
    have hsmall : w % 2 ^ (8 * k) + 2 ^ (8 * k) * v < 2 ^ (8 * k + 8) := by
      have h1 : w % 2 ^ (8 * k) < 2 ^ (8 * k) := Nat.mod_lt w (Nat.two_pow_pos _)
      have h2 : 2 ^ (8 * k) * v ≤ 2 ^ (8 * k) * 255 := Nat.mul_le_mul_left _ (by omega)
      have h3 : (2 : Nat) ^ (8 * k + 8) = 2 ^ (8 * k) * 256 := by
        rw [pow_add]
        norm_num
      omega
    have hdiv : ((w % 2 ^ (8 * k) + 2 ^ (8 * k) * v) + 2 ^ (8 * k + 8) *
        (w / 2 ^ (8 * k + 8))) / 2 ^ (8 * j) = w / 2 ^ (8 * j) := by
      have hsplit : (2 : Nat) ^ (8 * j) = 2 ^ (8 * k + 8) * 2 ^ (8 * j - 8 * k - 8) := by
        rw [← pow_add]
        congr 1
        omega
      rw [hsplit, ← Nat.div_div_eq_div_mul, Nat.add_mul_div_left _ _ (Nat.two_pow_pos _),
        Nat.div_eq_of_lt hsmall, Nat.zero_add, Nat.div_div_eq_div_mul, ← pow_add,
        show 8 * k + 8 + (8 * j - 8 * k - 8) = 8 * j by omega]
    rw [hform, hdiv]

/-- `align_addr_to_word` clears the low three bits: for a 64-bit address it is
`addr - addr % 8`. -/
theorem align_eq (addr : Nat) (h : addr < 2 ^ 64) :
    align_addr_to_word addr = addr - addr % 8 := by
  apply Nat.eq_of_testBit_eq
  intro i
  rw [show align_addr_to_word addr = addr &&& (2 ^ 64 - 8) from rfl, Nat.testBit_land]
  have hm : (2 : Nat) ^ 64 - 8 = 0 + 2 ^ 3 * (2 ^ 61 - 1) := by decide
  have hs : addr - addr % 8 = 0 + 2 ^ 3 * (addr / 2 ^ 3) := by
    have := Nat.div_add_mod addr 8
    omega
  rw [hm, hs, testBit_add_mul_pow 0 _ 3 i (by norm_num),
    testBit_add_mul_pow 0 _ 3 i (by norm_num)]
  by_cases h1 : i < 3
  · simp [h1, Nat.zero_testBit]
  · rw [if_neg h1, if_neg h1, Nat.testBit_two_pow_sub_one, testBit_div_pow,
      show 3 + (i - 3) = i by omega]
    by_cases h2 : i < 64
    · simp [show i - 3 < 61 from by omega]
    · have : addr.testBit i = false := by
        apply Nat.testBit_eq_false_of_lt
        calc addr < 2 ^ 64 := h
          _ ≤ 2 ^ i := Nat.pow_le_pow_right (by norm_num) (by omega)
      simp [this, show ¬ i - 3 < 61 from by omega]

theorem readWord_lt (mem : Nat → Fin 256) (a : Nat) : readWord mem a < 2 ^ 64 := by
  have h0 := (mem a).isLt
  have h1 := (mem (a + 1)).isLt
  have h2 := (mem (a + 2)).isLt
  have h3 := (mem (a + 3)).isLt
  have h4 := (mem (a + 4)).isLt
  have h5 := (mem (a + 5)).isLt
  have h6 := (mem (a + 6)).isLt
  have h7 := (mem (a + 7)).isLt
  unfold readWord
  norm_num
  omega

theorem readWord_byte (mem : Nat → Fin 256) (a j : Nat) (hj : j < 8) :
    readWord mem a / 2 ^ (8 * j) % 256 = (mem (a + j)).val := by
  have h0 := (mem a).isLt
  have h1 := (mem (a + 1)).isLt
  have h2 := (mem (a + 2)).isLt
  have h3 := (mem (a + 3)).isLt
  have h4 := (mem (a + 4)).isLt
  have h5 := (mem (a + 5)).isLt
  have h6 := (mem (a + 6)).isLt
  have h7 := (mem (a + 7)).isLt
  interval_cases j <;> (unfold readWord; try norm_num) <;> omega

/-! ### Specification of `write_byte` and the table operations -/

/-- Full characterization of a successful `write_byte`: it operates on the word at the
aligned address, returns the pre-write byte at `addr`, sets the byte at `addr` to `val`,
leaves every other byte of memory untouched, and the written word differs from the read
word only in byte `addr % 8`. -/
theorem write_byte_spec (t : Target) (addr val : Nat) (haddr : addr < 2 ^ 64)
    (hval : val < 256)
    (hr : t.readOk (align_addr_to_word addr) = true)
    (hw : t.writeOk (align_addr_to_word addr) = true) :
    ∃ u, write_byte t addr val =
        (Except.ok ({ t with mem := writeWordMem t.mem (align_addr_to_word addr) u },
          (t.mem addr).val),
         [Action.memWrite (align_addr_to_word addr) u]) ∧
      (writeWordMem t.mem (align_addr_to_word addr) u addr).val = val ∧
      (∀ x, x ≠ addr → writeWordMem t.mem (align_addr_to_word addr) u x = t.mem x) ∧
      ∀ j, j < 8 → u / 2 ^ (8 * j) % 256 =
        if j = addr % 8 then val
        else readWord t.mem (align_addr_to_word addr) / 2 ^ (8 * j) % 256 := by
  have ha := align_eq addr haddr
  have hmod : addr % 8 < 8 := Nat.mod_lt addr (by norm_num)
  have hmodle := Nat.mod_le addr 8
  have hofs : addr - align_addr_to_word addr = addr % 8 := by omega
  have haddr_eq : align_addr_to_word addr + addr % 8 = addr := by omega
  have hwlt := readWord_lt t.mem (align_addr_to_word addr)
  refine ⟨Nat.lor
      (Nat.land (readWord t.mem (align_addr_to_word addr))
        (2 ^ 64 - 1 - Nat.shiftLeft 255 (8 * (addr % 8))))
      (Nat.shiftLeft val (8 * (addr % 8))), ?_, ?_, ?_, ?_⟩
  · simp only [write_byte, hr, hw, if_true, hofs]
    rw [land_255, natShiftRight_eq,
      readWord_byte t.mem (align_addr_to_word addr) (addr % 8) hmod, haddr_eq]
  · unfold writeWordMem wordSize
    rw [if_pos (by omega : align_addr_to_word addr ≤ addr ∧ addr < align_addr_to_word addr + 8)]
    show Nat.lor _ _ / 2 ^ (8 * (addr - align_addr_to_word addr)) % 256 = val
    rw [hofs, masked_lor_eq _ val (addr % 8) hwlt hval hmod,
      write_word_bytes _ val (addr % 8) (addr % 8) hval hmod, if_pos rfl]
  · intro x hx
    unfold writeWordMem wordSize
    by_cases hin : align_addr_to_word addr ≤ x ∧ x < align_addr_to_word addr + 8
    · rw [if_pos hin]
      apply Fin.ext
      show Nat.lor _ _ / 2 ^ (8 * (x - align_addr_to_word addr)) % 256 = (t.mem x).val
      have hxa : x - align_addr_to_word addr < 8 := by omega
      rw [masked_lor_eq _ val (addr % 8) hwlt hval hmod,
        write_word_bytes _ val (addr % 8) (x - align_addr_to_word addr) hval hmod,
        if_neg (by omega), readWord_byte t.mem (align_addr_to_word addr) _ hxa,
        show align_addr_to_word addr + (x - align_addr_to_word addr) = x by omega]
    · rw [if_neg hin]
  · intro j hj
    rw [masked_lor_eq _ val (addr % 8) hwlt hval hmod,
      write_word_bytes _ val (addr % 8) j hval hmod]

theorem hmContains_of_lookup (m : List (Nat × Nat)) (k v : Nat)
    (h : hmLookup m k = some v) : hmContains m k = true := by
  unfold hmLookup at h
  rcases hfind : m.find? (fun p => p.1 == k) with _ | p
  · rw [hfind] at h
    simp at h
  · have hps := List.find?_some hfind
    unfold hmContains
    rw [List.any_eq_true]
    exact ⟨p, List.mem_of_find?_eq_some hfind, hps⟩

theorem hmLookup_append_self (m : List (Nat × Nat)) (k v : Nat)
    (h : hmContains m k = false) : hmLookup (m ++ [(k, v)]) k = some v := by
  unfold hmContains at h
  have hnone : m.find? (fun p => p.1 == k) = none := by
    rw [List.find?_eq_none]
    intro x hx
    exact fun hxk => (List.any_eq_false.mp h x hx) hxk
  unfold hmLookup
  rw [List.find?_append, hnone]
  simp

theorem hmLookup_append_preserve (m l : List (Nat × Nat)) (k v : Nat)
    (h : hmLookup m k = some v) : hmLookup (m ++ l) k = some v := by
  unfold hmLookup at h ⊢
  rcases hfind : m.find? (fun p => p.1 == k) with _ | p
  · rw [hfind] at h
    simp at h
  · rw [hfind] at h
    rw [List.find?_append, hfind]
    exact h

theorem not_mem_keys (m : List (Nat × Nat)) (a : Nat) (h : hmContains m a = false) :
    a ∉ m.map Prod.fst := by
  intro hmem
  rcases List.mem_map.mp hmem with ⟨q, hq, hqa⟩
  exact (List.any_eq_false.mp h q hq) (by simp [hqa])

/-- `set_breakpoint` never removes or overwrites an existing table binding. -/
theorem set_breakpoint_preserves_lookup (i : Inferior) (a A v : Nat)
    (h : hmLookup i.breakpoints_original_instr A = some v) :
    hmLookup ((set_breakpoint i a).1).breakpoints_original_instr A = some v := by
  unfold set_breakpoint
  by_cases halive : i.target.alive
  · rw [if_pos halive]
    rcases hwb : write_byte i.target a 0xcc with ⟨res, log⟩
    rcases res with e | ⟨t', orig⟩
    · exact h
    · dsimp only
      by_cases hc : hmContains i.breakpoints_original_instr a
      · rw [if_pos hc]
        exact h
      · rw [if_neg hc]
        show hmLookup (hmInsert i.breakpoints_original_instr a orig) A = some v
        unfold hmInsert
        rw [if_neg hc]
        exact hmLookup_append_preserve _ _ _ _ h
  · rw [if_neg halive]
    exact h

/-- `set_breakpoint` preserves distinctness of the table's keys. -/
theorem set_breakpoint_preserves_nodup (i : Inferior) (a : Nat)
    (h : keysNodup i.breakpoints_original_instr) :
    keysNodup ((set_breakpoint i a).1).breakpoints_original_instr := by
  unfold set_breakpoint
  by_cases halive : i.target.alive
  · rw [if_pos halive]
    rcases hwb : write_byte i.target a 0xcc with ⟨res, log⟩
    rcases res with e | ⟨t', orig⟩
    · exact h
    · dsimp only
      by_cases hc : hmContains i.breakpoints_original_instr a
      · rw [if_pos hc]
        exact h
      · rw [if_neg hc]
        show keysNodup (hmInsert i.breakpoints_original_instr a orig)
        unfold hmInsert
        rw [if_neg hc]
        unfold keysNodup at h ⊢
        rw [List.map_append, List.nodup_append]
        refine ⟨h, List.nodup_singleton _, ?_⟩
        intro x hx hxs
        simp only [List.map_cons, List.map_nil, List.mem_singleton] at hxs
        subst hxs
        have hcf : hmContains i.breakpoints_original_instr x = false := by
          revert hc
          cases hmContains i.breakpoints_original_instr x <;> simp
        exact not_mem_keys _ _ hcf hx
  · rw [if_neg halive]
    exact h

/-- Successful `set_breakpoint`: the trap byte is patched at `A`, every other byte is
untouched, and the table gains `(A, original byte)` only if `A` was not yet a key. -/
theorem set_breakpoint_ok (inf : Inferior) (A : Nat) (hA : A < 2 ^ 64)
    (halive : inf.target.alive = true)
    (hr : inf.target.readOk (align_addr_to_word A) = true)
    (hw : inf.target.writeOk (align_addr_to_word A) = true) :
    ∃ u, set_breakpoint inf A =
      ({ target := { inf.target with mem := writeWordMem inf.target.mem (align_addr_to_word A) u },
         breakpoints_original_instr :=
           if hmContains inf.breakpoints_original_instr A then inf.breakpoints_original_instr
           else hmInsert inf.breakpoints_original_instr A (inf.target.mem A).val },
       [Action.memWrite (align_addr_to_word A) u]) ∧
      (writeWordMem inf.target.mem (align_addr_to_word A) u A).val = 0xcc ∧
      ∀ x, x ≠ A → writeWordMem inf.target.mem (align_addr_to_word A) u x = inf.target.mem x := by
  obtain ⟨u, heq, hat, hother, _⟩ := write_byte_spec inf.target A 0xcc hA (by norm_num) hr hw
  refine ⟨u, ?_, hat, hother⟩
  unfold set_breakpoint
  rw [halive, if_pos rfl, heq]
  dsimp only
  by_cases hc : hmContains inf.breakpoints_original_instr A
  · rw [if_pos hc, if_pos hc]
  · rw [if_neg hc, if_neg hc]

/-! ### The claims -/

/-- C6: a successful blocking wait decodes exactly into: normal exit ↦ `Exited(code)`;
kill by signal ↦ `Signaled(sig)`; stop ↦ `Stopped(sig, rip)` with `rip` read from the
register snapshot (a failed register read propagates as an error); and every other
`waitpid` result hits the `panic!` catch-all instead of returning a value. -/
theorem claim_C6 (t : Target) (pid sg : Nat) (code ev : Int) (cd : Bool) :
    inferiorWait t (Except.error ()) = WaitOutcome.err ∧
    inferiorWait t (Except.ok (WaitStatus.exited pid code)) =
      WaitOutcome.ok (Status.exited code) ∧
    inferiorWait t (Except.ok (WaitStatus.signaled pid sg cd)) =
      WaitOutcome.ok (Status.signaled sg) ∧
    inferiorWait t (Except.ok (WaitStatus.stopped pid sg)) =
      (if t.regsOk then WaitOutcome.ok (Status.stopped sg t.regs.rip) else WaitOutcome.err) ∧
    inferiorWait t (Except.ok (WaitStatus.ptraceEvent pid sg ev)) = WaitOutcome.panicked ∧
    inferiorWait t (Except.ok (WaitStatus.ptraceSyscall pid)) = WaitOutcome.panicked ∧
    inferiorWait t (Except.ok (WaitStatus.continued pid)) = WaitOutcome.panicked ∧
    inferiorWait t (Except.ok WaitStatus.stillAlive) = WaitOutcome.panicked :=
  ⟨rfl, rfl, rfl, rfl, rfl, rfl, rfl, rfl⟩

/-- C7: when `install(A)` does not complete normally — the liveness probe reports the
child gone, or the ptrace read or write at the patched word fails — the whole inferior
is unchanged: no table entry is added or modified, no memory write is issued. -/
theorem claim_C7 (inf : Inferior) (A : Nat)
    (h : inf.target.alive = false ∨ inf.target.readOk (align_addr_to_word A) = false ∨
      inf.target.writeOk (align_addr_to_word A) = false) :
    set_breakpoint inf A = (inf, []) := by
  unfold set_breakpoint
  by_cases ha : inf.target.alive
  · rw [ha, if_pos rfl]
    have hrw : inf.target.readOk (align_addr_to_word A) = false ∨
        inf.target.writeOk (align_addr_to_word A) = false := by
      rcases h with h1 | h2
      · rw [ha] at h1
        exact absurd h1 (by simp)
      · exact h2
    have hwb : write_byte inf.target A 0xcc = (Except.error (), []) := by
      simp only [write_byte]
      rcases hrw with h1 | h2
      · rw [h1]
        simp
      · by_cases hh : inf.target.readOk (align_addr_to_word A)
        · rw [hh, if_pos rfl, h2]
          simp
        · simp [hh]
    rw [hwb]
  · rw [if_neg ha]

/-- C3: `write_byte(addr, val)` reads and writes the word at the aligned address
`addr - addr % 8`; the word written back agrees with the word read on every byte except
offset `addr % 8`, which becomes `val`; the returned value is the byte previously at
that offset, i.e. the memory byte at `addr`. -/
theorem claim_C3 (t : Target) (addr val : Nat) (haddr : addr < 2 ^ 64) (hval : val < 256)
    (hr : t.readOk (addr - addr % 8) = true) (hw : t.writeOk (addr - addr % 8) = true) :
    ∃ u, write_byte t addr val =
        (Except.ok ({ t with mem := writeWordMem t.mem (addr - addr % 8) u },
          readWord t.mem (addr - addr % 8) / 2 ^ (8 * (addr % 8)) % 256),
         [Action.memWrite (addr - addr % 8) u]) ∧
      (∀ j, j < 8 → u / 2 ^ (8 * j) % 256 =
        if j = addr % 8 then val
        else readWord t.mem (addr - addr % 8) / 2 ^ (8 * j) % 256) ∧
      readWord t.mem (addr - addr % 8) / 2 ^ (8 * (addr % 8)) % 256 = (t.mem addr).val := by
  have ha := align_eq addr haddr
  have hmod : addr % 8 < 8 := Nat.mod_lt addr (by norm_num)
  have hmodle := Nat.mod_le addr 8
  have haddr_eq : addr - addr % 8 + addr % 8 = addr := by omega
  rw [← ha] at hr hw ⊢
  have haeq : align_addr_to_word addr + addr % 8 = addr := by omega
  obtain ⟨u, heq, hat, hother, hbytes⟩ := write_byte_spec t addr val haddr hval hr hw
  refine ⟨u, ?_, hbytes, ?_⟩
  · rw [readWord_byte t.mem _ _ hmod, haeq]
    exact heq
  · rw [readWord_byte t.mem _ _ hmod, haeq]

/-- C2: a fresh `install(A)` records the pre-patch byte at `A`; the table's keys stay
distinct across any install; and no later sequence of installs (in particular a second
`install(A)`) ever changes the byte stored for `A`. -/
theorem claim_C2 (inf : Inferior) (A : Nat) (addrs : List Nat) (hA : A < 2 ^ 64)
    (habsent : hmContains inf.breakpoints_original_instr A = false)
    (halive : inf.target.alive = true)
    (hr : inf.target.readOk (align_addr_to_word A) = true)
    (hw : inf.target.writeOk (align_addr_to_word A) = true) :
    (∀ (i : Inferior) (a : Nat), keysNodup i.breakpoints_original_instr →
      keysNodup ((set_breakpoint i a).1).breakpoints_original_instr) ∧
    hmLookup ((set_breakpoint inf A).1).breakpoints_original_instr A =
      some (inf.target.mem A).val ∧
    hmLookup (installAll (set_breakpoint inf A).1 addrs).breakpoints_original_instr A =
      some (inf.target.mem A).val := by
  have hfirst : hmLookup ((set_breakpoint inf A).1).breakpoints_original_instr A =
      some (inf.target.mem A).val := by
    obtain ⟨u, heq, _, _⟩ := set_breakpoint_ok inf A hA halive hr hw
    rw [heq]
    dsimp only
    rw [if_neg (by rw [habsent]; exact Bool.false_ne_true)]
    unfold hmInsert
    rw [if_neg (by rw [habsent]; exact Bool.false_ne_true)]
    exact hmLookup_append_self _ _ _ habsent
  refine ⟨fun i a h => set_breakpoint_preserves_nodup i a h, hfirst, ?_⟩
  have key : ∀ (l : List Nat) (i : Inferior),
      hmLookup i.breakpoints_original_instr A = some (inf.target.mem A).val →
      hmLookup (installAll i l).breakpoints_original_instr A =
        some (inf.target.mem A).val := by
    intro l
    induction l with
    | nil => exact fun i h => h
    | cons b bs ih => exact fun i h => ih _ (set_breakpoint_preserves_lookup i b A _ h)
  exact key addrs _ hfirst

/-- Carrying out the restore / rewind / step prefix of the step-over sub-protocol:
when the registers are read, `(rip - 1)` is in the table, the restore write succeeds,
`setregs` succeeds and the step request is issued, `cont()` reduces to `stepOverTail`
on the stepped target, with the restore write, register rewind and step request logged
in that order; the restored target carries the original byte at `(rip - 1)` and the
rewound program counter. -/
theorem contResult_stepOver (inf : Inferior) (env : ContEnv) (instr : Nat)
    (hpc : 0 < inf.target.regs.rip) (hpc64 : inf.target.regs.rip ≤ 2 ^ 64)
    (hinstr : instr < 256)
    (hregs : inf.target.regsOk = true)
    (hbp : hmLookup inf.breakpoints_original_instr (inf.target.regs.rip - 1) = some instr)
    (hr1 : inf.target.readOk (align_addr_to_word (inf.target.regs.rip - 1)) = true)
    (hw1 : inf.target.writeOk (align_addr_to_word (inf.target.regs.rip - 1)) = true)
    (hset : inf.target.setregsOk = true)
    (hstepok : env.stepOk = true) :
    ∃ u1, ((stepOverRestored inf instr).mem (inf.target.regs.rip - 1)).val = instr ∧
      (stepOverRestored inf instr).regs.rip = inf.target.regs.rip - 1 ∧
      (∀ x, x ≠ inf.target.regs.rip - 1 →
        (stepOverRestored inf instr).mem x = inf.target.mem x) ∧
      contResult inf env =
        stepOverTail ⟨stepOverStepped inf env instr, inf.breakpoints_original_instr⟩ env
          (inf.target.regs.rip - 1)
          [Action.memWrite (align_addr_to_word (inf.target.regs.rip - 1)) u1,
           Action.setRegs (inf.target.regs.rip - 1), Action.singleStep] := by
  have hA : inf.target.regs.rip - 1 < 2 ^ 64 := by omega
  obtain ⟨u1, heq, hat, hother, _⟩ :=
    write_byte_spec inf.target (inf.target.regs.rip - 1) instr hA hinstr hr1 hw1
  have hrest : stepOverRestored inf instr =
      { mem := writeWordMem inf.target.mem (align_addr_to_word (inf.target.regs.rip - 1)) u1,
        readOk := inf.target.readOk, writeOk := inf.target.writeOk,
        regs := { rip := inf.target.regs.rip - 1, rbp := inf.target.regs.rbp },
        regsOk := inf.target.regsOk, setregsOk := inf.target.setregsOk,
        alive := inf.target.alive } := by
    simp only [stepOverRestored]
    rw [heq]
  refine ⟨u1, ?_, ?_, ?_, ?_⟩
  · rw [hrest]
    exact hat
  · rw [hrest]
  · intro x hx
    rw [hrest]
    exact hother x hx
  · unfold contResult
    rw [hregs, if_pos rfl]
    dsimp only
    rw [hbp]
    dsimp only
    rw [heq]
    dsimp only
    rw [if_pos hset, if_pos hstepok]
    unfold stepOverTail stepOverStepped
    rw [hrest]
    dsimp only
    simp only [List.cons_append, List.nil_append]

/-- C10: when the process is stopped at `pc` with `(pc - 1)` not in the breakpoint
table, `resume()` touches nothing before the full continue: no memory write, no
register write, no table change — the only logged action is the continue request, and
the target handed to the continued execution is exactly the original one. -/
theorem claim_C10 (inf : Inferior) (env : ContEnv)
    (hpc : 0 < inf.target.regs.rip)
    (hregs : inf.target.regsOk = true)
    (hbp : hmLookup inf.breakpoints_original_instr (inf.target.regs.rip - 1) = none)
    (hcont : env.contOk = true) :
    contResult inf env =
      (waitToCont (inferiorWait (env.contEffect inf.target) env.contWaitStatus),
       ⟨env.contEffect inf.target, inf.breakpoints_original_instr⟩,
       [Action.contReq]) := by
  unfold contResult
  rw [hregs, if_pos rfl]
  dsimp only
  rw [hbp]
  show contTail inf env [] = _
  unfold contTail
  rw [hcont, if_pos rfl]
  rfl

/-- C1: on a trap-stop resume with `(pc - 1)` in the table, `resume()` writes the
stored original byte back at `(pc - 1)`, rewinds the program counter to `(pc - 1)`,
single-steps and waits, and — the step having reported a trap stop — re-installs the
trap byte at `(pc - 1)` before issuing the full continue: the target handed to the
continued execution has `0xcc` at `(pc - 1)` again (every other byte as the step left
it) and the table still maps `(pc - 1)` to the original byte, so a later pass through
that address traps again. -/
theorem claim_C1 (inf : Inferior) (env : ContEnv) (instr pid : Nat)
    (hpc : 0 < inf.target.regs.rip) (hpc64 : inf.target.regs.rip ≤ 2 ^ 64)
    (hinstr : instr < 256)
    (hregs : inf.target.regsOk = true)
    (hbp : hmLookup inf.breakpoints_original_instr (inf.target.regs.rip - 1) = some instr)
    (hr1 : inf.target.readOk (align_addr_to_word (inf.target.regs.rip - 1)) = true)
    (hw1 : inf.target.writeOk (align_addr_to_word (inf.target.regs.rip - 1)) = true)
    (hset : inf.target.setregsOk = true)
    (hstepok : env.stepOk = true)
    (hsw : env.stepWaitStatus = Except.ok (WaitStatus.stopped pid SIGTRAP))
    (ht3regs : (stepOverStepped inf env instr).regsOk = true)
    (ht3alive : (stepOverStepped inf env instr).alive = true)
    (hr2 : (stepOverStepped inf env instr).readOk
      (align_addr_to_word (inf.target.regs.rip - 1)) = true)
    (hw2 : (stepOverStepped inf env instr).writeOk
      (align_addr_to_word (inf.target.regs.rip - 1)) = true)
    (hcont : env.contOk = true) :
    ∃ u1 u2 t4,
      t4 = (set_breakpoint ⟨stepOverStepped inf env instr, inf.breakpoints_original_instr⟩
        (inf.target.regs.rip - 1)).1.target ∧
      contResult inf env =
        (waitToCont (inferiorWait (env.contEffect t4) env.contWaitStatus),
         ⟨env.contEffect t4, inf.breakpoints_original_instr⟩,
         [Action.memWrite (align_addr_to_word (inf.target.regs.rip - 1)) u1,
          Action.setRegs (inf.target.regs.rip - 1), Action.singleStep,
          Action.memWrite (align_addr_to_word (inf.target.regs.rip - 1)) u2,
          Action.contReq]) ∧
      ((stepOverRestored inf instr).mem (inf.target.regs.rip - 1)).val = instr ∧
      (stepOverRestored inf instr).regs.rip = inf.target.regs.rip - 1 ∧
      (t4.mem (inf.target.regs.rip - 1)).val = 0xcc ∧
      ∀ x, x ≠ inf.target.regs.rip - 1 →
        t4.mem x = (stepOverStepped inf env instr).mem x := by
  have hA : inf.target.regs.rip - 1 < 2 ^ 64 := by omega
  obtain ⟨u1, hrmem, hrrip, _, hcr⟩ :=
    contResult_stepOver inf env instr hpc hpc64 hinstr hregs hbp hr1 hw1 hset hstepok
  have hc : hmContains inf.breakpoints_original_instr (inf.target.regs.rip - 1) = true :=
    hmContains_of_lookup _ _ _ hbp
  obtain ⟨u2, heq2, hat2, hother2⟩ :=
    set_breakpoint_ok ⟨stepOverStepped inf env instr, inf.breakpoints_original_instr⟩
      (inf.target.regs.rip - 1) hA ht3alive hr2 hw2
  refine ⟨u1, u2, _, rfl, ?_, hrmem, hrrip, ?_, ?_⟩
  · rw [hcr]
    have hiw : inferiorWait (stepOverStepped inf env instr)
        (Except.ok (WaitStatus.stopped pid SIGTRAP)) =
        WaitOutcome.ok (Status.stopped SIGTRAP (stepOverStepped inf env instr).regs.rip) := by
      unfold inferiorWait
      dsimp only
      rw [if_pos ht3regs]
    unfold stepOverTail
    dsimp only
    rw [hsw, hiw]
    dsimp only
    rw [if_pos rfl, heq2]
    dsimp only
    rw [if_pos hc]
    unfold contTail
    rw [if_pos hcont]
    dsimp only
    simp only [List.cons_append, List.nil_append]
  · rw [heq2]
    exact hat2
  · intro x hx
    rw [heq2]
    exact hother2 x hx

/-- C5 counterexample: with the wait after the single step reporting that the child was
terminated by signal 9, `resume()` does not abort — it prints the signal and proceeds
to issue the full continue, contradicting the claim that any non-trap signal
(including a termination) is fatal and never followed by the continue. -/
theorem claim_C5_cex :
    (contResult demoInf demoSigEnv).1 ≠ ContOutcome.panicked ∧
    Action.contReq ∈ (contResult demoInf demoSigEnv).2.2 := by
  decide

/-- C5 (amended): during the step-over sub-protocol, a *stop* with a non-trap signal
panics before any re-arm or continue; but a *termination by signal* report is only
printed, and `resume()` proceeds to issue the full continue without re-arming the
breakpoint. -/
theorem claim_C5 (inf : Inferior) (env : ContEnv) (instr : Nat)
    (hpc : 0 < inf.target.regs.rip) (hpc64 : inf.target.regs.rip ≤ 2 ^ 64)
    (hinstr : instr < 256)
    (hregs : inf.target.regsOk = true)
    (hbp : hmLookup inf.breakpoints_original_instr (inf.target.regs.rip - 1) = some instr)
    (hr1 : inf.target.readOk (align_addr_to_word (inf.target.regs.rip - 1)) = true)
    (hw1 : inf.target.writeOk (align_addr_to_word (inf.target.regs.rip - 1)) = true)
    (hset : inf.target.setregsOk = true)
    (hstepok : env.stepOk = true) :
    ∃ u1,
      (∀ pid sg, sg ≠ SIGTRAP →
        env.stepWaitStatus = Except.ok (WaitStatus.stopped pid sg) →
        (stepOverStepped inf env instr).regsOk = true →
        contResult inf env =
          (ContOutcome.panicked,
           ⟨stepOverStepped inf env instr, inf.breakpoints_original_instr⟩,
           [Action.memWrite (align_addr_to_word (inf.target.regs.rip - 1)) u1,
            Action.setRegs (inf.target.regs.rip - 1), Action.singleStep])) ∧
      (∀ pid sg cd, env.stepWaitStatus = Except.ok (WaitStatus.signaled pid sg cd) →
        env.contOk = true →
        contResult inf env =
          (waitToCont (inferiorWait (env.contEffect (stepOverStepped inf env instr))
            env.contWaitStatus),
           ⟨env.contEffect (stepOverStepped inf env instr), inf.breakpoints_original_instr⟩,
           [Action.memWrite (align_addr_to_word (inf.target.regs.rip - 1)) u1,
            Action.setRegs (inf.target.regs.rip - 1), Action.singleStep,
            Action.contReq])) := by
  obtain ⟨u1, _, _, _, hcr⟩ :=
    contResult_stepOver inf env instr hpc hpc64 hinstr hregs hbp hr1 hw1 hset hstepok
  refine ⟨u1, ?_, ?_⟩
  · intro pid sg hsg hsw ht3regs
    rw [hcr]
    have hiw : inferiorWait (stepOverStepped inf env instr)
        (Except.ok (WaitStatus.stopped pid sg)) =
        WaitOutcome.ok (Status.stopped sg (stepOverStepped inf env instr).regs.rip) := by
      unfold inferiorWait
      dsimp only
      rw [if_pos ht3regs]
    unfold stepOverTail
    dsimp only
    rw [hsw, hiw]
    dsimp only
    rw [if_neg hsg]
  · intro pid sg cd hsw hcont
    rw [hcr]
    have hiw : inferiorWait (stepOverStepped inf env instr)
        (Except.ok (WaitStatus.signaled pid sg cd)) =
        WaitOutcome.ok (Status.signaled sg) := rfl
    unfold stepOverTail
    dsimp only
    rw [hsw, hiw]
    dsimp only
    unfold contTail
    rw [if_pos hcont]
    simp only [List.cons_append, List.nil_append]

/-- C4: a controller is produced exactly when the spawn succeeds and the first wait
decodes to a SIGTRAP stop; every other first outcome yields no controller. A produced
controller is the freshly spawned inferior with every requested breakpoint installed by
the install loop. -/
theorem claim_C4 (spawn : Option Target) (fw : Except Unit WaitStatus) (bps : List Nat) :
    ((∃ inf, Inferior.new spawn fw bps = NewResult.controller inf) ↔
      (∃ t0 pc, spawn = some t0 ∧
        inferiorWait t0 fw = WaitOutcome.ok (Status.stopped SIGTRAP pc))) ∧
    ∀ t0 inf, spawn = some t0 → Inferior.new spawn fw bps = NewResult.controller inf →
      inf = installAll ⟨t0, []⟩ bps := by
  constructor
  · constructor
    · rintro ⟨inf, hinf⟩
      rcases spawn with _ | t0
      · exact absurd hinf (by simp [Inferior.new])
      · refine ⟨t0, ?_⟩
        unfold Inferior.new at hinf
        dsimp only at hinf
        rcases hwait : inferiorWait t0 fw with st | _ | _ <;> rw [hwait] at hinf <;>
          dsimp only at hinf
        · rcases st with ⟨sg, pc⟩ | code | sg <;> dsimp only at hinf
          · by_cases hsg : sg = SIGTRAP
            · subst hsg
              exact ⟨pc, rfl, rfl⟩
            · rw [if_neg hsg] at hinf
              cases hinf
          · cases hinf
          · cases hinf
        · cases hinf
        · cases hinf
    · rintro ⟨t0, pc, hs, hwait⟩
      subst hs
      unfold Inferior.new
      dsimp only
      rw [hwait]
      dsimp only
      rw [if_pos rfl]
      exact ⟨_, rfl⟩
  · intro t0 inf hs hinf
    subst hs
    unfold Inferior.new at hinf
    dsimp only at hinf
    rcases hwait : inferiorWait t0 fw with st | _ | _ <;> rw [hwait] at hinf <;>
      dsimp only at hinf
    · rcases st with ⟨sg, pc⟩ | code | sg <;> dsimp only at hinf
      · by_cases hsg : sg = SIGTRAP
        · subst hsg
          rw [if_pos rfl] at hinf
          injection hinf with h
          exact h.symm
        · rw [if_neg hsg] at hinf
          cases hinf
      · cases hinf
      · cases hinf
    · cases hinf
    · cases hinf

/-- One unfolding of the backtrace loop body. -/
theorem print_backtrace_aux_succ (dd : DwarfData) (t : Target) (fuel ip bp : Nat) :
    print_backtrace_aux dd t (fuel + 1) ip bp =
      (if resolvedFunction dd ip = "main" then BtResult.ok [resolvedFrame dd ip]
       else if (t.readOk (bp + 8) && t.readOk bp) = true then
         (match print_backtrace_aux dd t fuel (readWord t.mem (bp + 8))
            (readWord t.mem bp) with
          | BtResult.ok fs => BtResult.ok (resolvedFrame dd ip :: fs)
          | BtResult.err fs => BtResult.err (resolvedFrame dd ip :: fs)
          | BtResult.fuelOut fs => BtResult.fuelOut (resolvedFrame dd ip :: fs))
       else BtResult.err [resolvedFrame dd ip]) := rfl

/-- C8: the backtrace walk resolves each emitted frame through the symbol resolver with
an explicit "undefined" placeholder for a missing resolution; it stops exactly when the
resolved function is `"main"`; otherwise it takes the next instruction pointer from the
word 8 bytes above the frame base and the next frame base from the word at the frame
base; a failed read aborts with an error after the frame already emitted; and a failed
initial register read aborts before any frame. -/
theorem claim_C8 (dd : DwarfData) (t : Target) (fuel ip bp : Nat) :
    (dd.getFunctionFromAddr ip = none → resolvedFunction dd ip = "undefined") ∧
    (dd.getLineFromAddr ip = none → resolvedLine dd ip = ⟨"undefined", 0, ip⟩) ∧
    (resolvedFunction dd ip = "main" →
      print_backtrace_aux dd t (fuel + 1) ip bp = BtResult.ok [resolvedFrame dd ip]) ∧
    (resolvedFunction dd ip ≠ "main" → (t.readOk (bp + 8) && t.readOk bp) = true →
      print_backtrace_aux dd t (fuel + 1) ip bp =
        (match print_backtrace_aux dd t fuel (readWord t.mem (bp + 8)) (readWord t.mem bp) with
         | BtResult.ok fs => BtResult.ok (resolvedFrame dd ip :: fs)
         | BtResult.err fs => BtResult.err (resolvedFrame dd ip :: fs)
         | BtResult.fuelOut fs => BtResult.fuelOut (resolvedFrame dd ip :: fs))) ∧
    (resolvedFunction dd ip ≠ "main" → (t.readOk (bp + 8) && t.readOk bp) = false →
      print_backtrace_aux dd t (fuel + 1) ip bp = BtResult.err [resolvedFrame dd ip]) ∧
    print_backtrace dd t fuel =
      (if t.regsOk then print_backtrace_aux dd t fuel t.regs.rip t.regs.rbp
       else BtResult.err []) := by
  refine ⟨?_, ?_, ?_, ?_, ?_, rfl⟩
  · intro h
    unfold resolvedFunction
    rw [h]
    rfl
  · intro h
    unfold resolvedLine
    rw [h]
    rfl
  · intro h
    rw [print_backtrace_aux_succ, if_pos h]
  · intro hm hrd
    rw [print_backtrace_aux_succ, if_neg hm, if_pos hrd]
  · intro hm hrd
    rw [print_backtrace_aux_succ, if_neg hm,
      if_neg (by rw [hrd]; exact Bool.false_ne_true)]

/-- C9: from a stop point whose frame-pointer chain reaches, after finitely many
well-formed steps, an address resolving to the entry function `"main"`, the backtrace
loop terminates within that many iterations and the produced frames include one for
`"main"`. -/
theorem claim_C9 (dd : DwarfData) (t : Target) (n ip bp : Nat) (q : Nat × Nat)
    (hchain : btIter t n (ip, bp) = some q)
    (hmain : resolvedFunction dd q.1 = "main") :
    ∃ frames, print_backtrace_aux dd t (n + 1) ip bp = BtResult.ok frames ∧
      ∃ fr ∈ frames, fr.function = "main" := by
  have key : ∀ (m : Nat) (ip bp : Nat), btIter t m (ip, bp) = some q →
      ∃ frames, print_backtrace_aux dd t (m + 1) ip bp = BtResult.ok frames ∧
        ∃ fr ∈ frames, fr.function = "main" := by
    intro m
    induction m with
    | zero =>
      intro ip bp hch
      simp only [btIter] at hch
      injection hch with hch
      subst hch
      refine ⟨[resolvedFrame dd ip], ?_, resolvedFrame dd ip, List.mem_singleton_self _, hmain⟩
      rw [print_backtrace_aux_succ, if_pos hmain]
    | succ m ih =>
      intro ip bp hch
      by_cases hm : resolvedFunction dd ip = "main"
      · refine ⟨[resolvedFrame dd ip], ?_, resolvedFrame dd ip, List.mem_singleton_self _, hm⟩
        rw [print_backtrace_aux_succ, if_pos hm]
      · simp only [btIter] at hch
        rcases hstep : btStep t (ip, bp) with _ | p2
        · rw [hstep] at hch
          cases hch
        · rw [hstep] at hch
          unfold btStep at hstep
          dsimp only at hstep
          by_cases hrd : (t.readOk (bp + 8) && t.readOk bp) = true
          · rw [if_pos hrd] at hstep
            injection hstep with hstep
            subst hstep
            obtain ⟨frames, hok, fr, hmem, hfr⟩ :=
              ih (readWord t.mem (bp + 8)) (readWord t.mem bp) hch
            refine ⟨resolvedFrame dd ip :: frames, ?_, fr, List.mem_cons_of_mem _ hmem, hfr⟩
            rw [print_backtrace_aux_succ, if_neg hm, if_pos hrd, hok]
          · rw [if_neg hrd] at hstep
            cases hstep
  exact key n ip bp hchain

/-! ### Witnesses: the claim theorems applied at concrete inputs -/

/-- Witness for C1 at a concrete trap-stop resume: the re-armed target carries the trap
byte at the breakpoint address again. -/
theorem claim_C1_witness :
    ((set_breakpoint ⟨stepOverStepped demoInf demoTrapEnv 144,
        demoInf.breakpoints_original_instr⟩ 1).1.target.mem 1).val = 0xcc := by
  obtain ⟨u1, u2, t4, ht4, hres, hrm, hrr, hmem, hoth⟩ :=
    claim_C1 demoInf demoTrapEnv 144 0 (by decide) (by decide) (by decide) rfl (by decide)
      rfl rfl rfl rfl rfl (by decide) (by decide) (by decide) (by decide) rfl
  exact ht4 ▸ hmem

/-- Witness for C2 at a concrete fresh install: the table records the pre-patch byte. -/
theorem claim_C2_witness :
    hmLookup ((set_breakpoint demoInf 3).1).breakpoints_original_instr 3 =
      some (demoInf.target.mem 3).val :=
  (claim_C2 demoInf 3 [3] (by decide) (by decide) rfl rfl rfl).2.1

/-- Witness for C3 at a concrete write: the returned byte is the pre-write memory
byte at the patched address. -/
theorem claim_C3_witness :
    readWord demoTarget.mem (3 - 3 % 8) / 2 ^ (8 * (3 % 8)) % 256 =
      (demoTarget.mem 3).val := by
  obtain ⟨u, _, _, h3⟩ := claim_C3 demoTarget 3 204 (by decide) (by decide) rfl rfl
  exact h3

/-- Witness for C4 at a concrete successful launch. -/
theorem claim_C4_witness :
    ∃ inf, Inferior.new (some demoTarget) (Except.ok (WaitStatus.stopped 0 SIGTRAP)) [] =
      NewResult.controller inf :=
  (claim_C4 (some demoTarget) (Except.ok (WaitStatus.stopped 0 SIGTRAP)) []).1.mpr
    ⟨demoTarget, 2, rfl, rfl⟩

/-- Witness for C5 (amended) at the concrete signal-termination environment: the resume
call returns the outcome of the full continue it went on to issue. -/
theorem claim_C5_witness :
    (contResult demoInf demoSigEnv).1 = ContOutcome.ok (Status.exited 0) := by
  obtain ⟨u1, _, hsig⟩ :=
    claim_C5 demoInf demoSigEnv 144 (by decide) (by decide) (by decide) rfl (by decide)
      rfl rfl rfl rfl
  rw [hsig 0 9 false rfl rfl]
  rfl

/-- Witness for C7 at a concrete dead child: install is a strict no-op. -/
theorem claim_C7_witness : set_breakpoint demoDeadInf 5 = (demoDeadInf, []) :=
  claim_C7 demoDeadInf 5 (Or.inl rfl)

/-- Witness for C8 at a concrete stop in `"main"`: the walk emits the single resolved
frame and stops. -/
theorem claim_C8_witness :
    print_backtrace_aux demoDwarf demoTarget 1 7 0 =
      BtResult.ok [resolvedFrame demoDwarf 7] :=
  (claim_C8 demoDwarf demoTarget 0 7 0).2.2.1 rfl

/-- Witness for C9 on a concrete zero-step chain already at `"main"`. -/
theorem claim_C9_witness :
    ∃ frames, print_backtrace_aux demoDwarf demoTarget 1 7 0 = BtResult.ok frames ∧
      ∃ fr ∈ frames, fr.function = "main" :=
  claim_C9 demoDwarf demoTarget 0 7 0 (7, 0) rfl rfl

/-- Witness for C10 at a concrete resume with an empty breakpoint table: the only
logged ptrace action is the continue request. -/
theorem claim_C10_witness :
    (contResult demoEmptyInf demoTrapEnv).2.2 = [Action.contReq] := by
  rw [claim_C10 demoEmptyInf demoTrapEnv (by decide) rfl rfl rfl]

end Deet
